import Mathlib

/-!
Verification development for the query-pagination core of `graphql-compiler`.

The definitions below are a shallow embedding of
`graphql_compiler/query_pagination/__init__.py` and
`graphql_compiler/query_pagination/query_parameterizer.py`.

Modelling conventions:
* GraphQL AST nodes (`FieldNode`, `InlineFragmentNode`,
  `OperationDefinitionNode`) all expose the same data used by the code
  (a field name, a directive list, an optional selection set), so they are
  modelled by the single closed variant `AstNode`.
* Python `float` cardinalities are modelled as exact rationals (every value
  exercised here is exactly representable).
* Python exceptions (`ValueError`, `AssertionError`, `NotImplementedError`,
  attribute/index failures of misused dynamic values) are modelled with
  `Except PaginationError`; distinct constructors keep the failure kinds
  apart.
* Parameter dictionaries (`Dict[str, Any]`) are modelled as
  insertion-ordered association lists `List (String × V)`; the code only
  reads keys, filters entries, and never inserts, so ordered lists model
  dict comprehensions exactly.
-/

/-- Failure kinds raised by the embedded code paths. -/
inductive PaginationError : Type where
  | valueError : PaginationError
  | assertionError : PaginationError
  | notImplementedError : PaginationError
  | attributeError : PaginationError
  | indexError : PaginationError
  | graphQLError : PaginationError
  | splitCallError : PaginationError
  deriving DecidableEq, Repr

/-- Embedding of `graphql.language.ast` value nodes used by the code:
`StringValueNode` and `ListValueNode`. -/
inductive ValueNode : Type where
  | stringValue : String → ValueNode
  | listValue : List ValueNode → ValueNode

/-- Embedding of `ArgumentNode`: a name and a value. -/
structure ArgumentNode : Type where
  name : String
  value : ValueNode

/-- Embedding of `DirectiveNode`: a name and an argument list. -/
structure DirectiveNode : Type where
  name : String
  arguments : List ArgumentNode

/-- Embedding of the selection-capable GraphQL AST nodes (`FieldNode`,
`InlineFragmentNode`, `OperationDefinitionNode`): a field name, a directive
list and an optional selection set.  A `none` selection set models Python's
`selection_set is None`. -/
inductive AstNode : Type where
  | mk : String → List DirectiveNode → Option (List AstNode) → AstNode

/-- The field name of an AST node (`get_ast_field_name`). -/
def AstNode.name : AstNode → String
  | .mk n _ _ => n

/-- The directive list of an AST node. -/
def AstNode.directives : AstNode → List DirectiveNode
  | .mk _ ds _ => ds

/-- The optional selection set of an AST node. -/
def AstNode.selectionSet : AstNode → Option (List AstNode)
  | .mk _ _ s => s

/-- Embedding of `DocumentNode`: a list of definitions. -/
structure DocumentNode : Type where
  definitions : List AstNode

/-- Embedding of `global_utils.ASTWithParameters` (module not under `src/`;
its shape is fixed by the spec's Query data model and by every use site in
`src/`): an AST together with a parameter mapping. -/
structure ASTWithParameters (V : Type) : Type where
  queryAst : DocumentNode
  parameters : List (String × V)

/-- Decimal digits of `n`, least significant first, via repeated division by
ten; the first argument is fuel (`n` itself suffices). -/
def decDigitsAux : Nat → Nat → List Nat
  | 0, _ => []
  | fuel + 1, n => if n = 0 then [] else n % 10 :: decDigitsAux fuel (n / 10)

/-- Decimal digits of `n`, least significant first. -/
def decDigits (n : Nat) : List Nat :=
  decDigitsAux n n

/-- The ASCII character of the decimal digit `d`. -/
def digitChar (d : Nat) : Char :=
  Char.ofNat (48 + d)

/-- The decimal numeral of `n`, exactly what Python's `str(n)` produces for
a nonnegative integer. -/
def decimalRepr (n : Nat) : String :=
  if n = 0 then "0" else String.mk (((decDigits n).reverse).map digitChar)

/-- The candidate name tried at index `i` by `_generate_new_name`:
Python's `"{}_{}".format(base_name, index)`. -/
def nameCandidate (baseName : String) (i : Nat) : String :=
  baseName ++ "_" ++ decimalRepr i

/-- The search loop of `_generate_new_name`: starting at `index`, return the
first candidate not in `taken`, trying at most `fuel + 1` candidates (the
Python loop is unbounded; `taken.length + 1` candidates always suffice, see
`generateNewNameAux_spec`). -/
def generateNewNameAux (baseName : String) (taken : List String) : Nat → Nat → String
  | 0, index => nameCandidate baseName index
  | fuel + 1, index =>
    if nameCandidate baseName index ∈ taken then
      generateNewNameAux baseName taken fuel (index + 1)
    else
      nameCandidate baseName index

/-- Embedding of `_generate_new_name`: return a name based on `baseName`
that is not in `taken`, trying `{base}_0`, `{base}_1`, ... in order. -/
def generateNewName (baseName : String) (taken : List String) : String :=
  generateNewNameAux baseName taken (taken.length + 1) 0

/-- Modelled from the spec: `get_parameter_name` from the missing module
`compiler.helpers`.  The spec describes filter arguments as the character
`$` followed by the parameter name; this returns the name after the
leading `$` (and fails on a value that is not `$`-prefixed). -/
def getParameterName (s : String) : Except PaginationError String :=
  match s.data with
  | '$' :: rest => .ok (String.mk rest)
  | _ => .error .assertionError

/-- Embedding of `_get_binary_filter_node_parameter`: the parameter name of
a binary filter directive, read from its second argument's one-element list
value.  Missing second argument, a non-list value, a list of length other
than one, or a non-string element fail as the Python attribute/index
accesses and assertion do. -/
def getBinaryFilterNodeParameter (filterDirective : DirectiveNode) :
    Except PaginationError String :=
  match filterDirective.arguments with
  | _ :: arg1 :: _ =>
    match arg1.value with
    | .listValue vs =>
      match vs with
      | [v] =>
        match v with
        | .stringValue argumentName => getParameterName argumentName
        | .listValue _ => .error .attributeError
      | _ => .error .assertionError
    | .stringValue _ => .error .attributeError
  | _ => .error .indexError

/-- Embedding of `_get_filter_node_operation`: the `op_name` string of a
`@filter` directive, read from its first argument's value. -/
def getFilterNodeOperation (filterDirective : DirectiveNode) :
    Except PaginationError String :=
  match filterDirective.arguments with
  | arg0 :: _ =>
    match arg0.value with
    | .stringValue s => .ok s
    | .listValue _ => .error .attributeError
  | [] => .error .indexError

/-- Embedding of `_make_binary_filter_directive_node`: a `@filter` directive
with the given binary `op_name` and a one-element value list holding
`"$" ++ paramName`. -/
def makeBinaryFilterDirectiveNode (opName : String) (paramName : String) :
    DirectiveNode :=
  { name := "filter"
    arguments :=
      [ { name := "op_name", value := .stringValue opName }
      , { name := "value"
          value := .listValue [.stringValue ("$" ++ paramName)] } ] }

/-- Directive pruning performed by `_add_pagination_filter` on the matched
pagination-field child: walk the child's directive list in order; a
directive whose extracted operation equals the operation of `dirToAdd` is
dropped and its parameter name recorded, any other directive is kept.
Extraction failures surface in the same order as the Python attribute and
index accesses. -/
def pruneDirectives (dirToAdd : DirectiveNode) :
    List DirectiveNode → Except PaginationError (List DirectiveNode × List String)
  | [] => .ok ([], [])
  | d :: ds =>
    match getFilterNodeOperation d with
    | .error e => .error e
    | .ok operation =>
      match getFilterNodeOperation dirToAdd with
      | .error e => .error e
      | .ok operationToAdd =>
        if operation = operationToAdd then
          match getBinaryFilterNodeParameter d with
          | .error e => .error e
          | .ok p =>
            match pruneDirectives dirToAdd ds with
            | .error e => .error e
            | .ok rest => .ok (rest.1, p :: rest.2)
        else
          match pruneDirectives dirToAdd ds with
          | .error e => .error e
          | .ok rest => .ok (d :: rest.1, rest.2)

/-- Result of one pass of `_add_pagination_filter` over a selection list:
the rebuilt selections, the removed parameter names, and the `found_field`
flag. -/
structure SelectionsResult : Type where
  sels : List AstNode
  removed : List String
  found : Bool

/-- The `len(query_path) == 0` loop of `_add_pagination_filter`: for each
selection whose field name equals `paginationField`, prune same-operation
directives and append `dirToAdd`; every other selection is passed through
unchanged. -/
def processTargetSelections (paginationField : String) (dirToAdd : DirectiveNode) :
    List AstNode → Except PaginationError SelectionsResult
  | [] => .ok ⟨[], [], false⟩
  | sel :: rest =>
    if sel.name = paginationField then
      match pruneDirectives dirToAdd sel.directives with
      | .error e => .error e
      | .ok pr =>
        match processTargetSelections paginationField dirToAdd rest with
        | .error e => .error e
        | .ok r =>
          .ok ⟨AstNode.mk sel.name (pr.1 ++ [dirToAdd]) sel.selectionSet :: r.sels,
               pr.2 ++ r.removed, true⟩
    else
      match processTargetSelections paginationField dirToAdd rest with
      | .error e => .error e
      | .ok r => .ok ⟨sel :: r.sels, r.removed, r.found⟩

/-- The recursive-descent loop of `_add_pagination_filter`: for each
selection whose field name equals the next path segment `p`, apply the
recursive rewrite `f`; every other selection is passed through unchanged. -/
def processPathSelections (f : AstNode → Except PaginationError (AstNode × List String))
    (p : String) : List AstNode → Except PaginationError SelectionsResult
  | [] => .ok ⟨[], [], false⟩
  | sel :: rest =>
    if sel.name = p then
      match f sel with
      | .error e => .error e
      | .ok r1 =>
        match processPathSelections f p rest with
        | .error e => .error e
        | .ok r => .ok ⟨r1.1 :: r.sels, r1.2 ++ r.removed, true⟩
    else
      match processPathSelections f p rest with
      | .error e => .error e
      | .ok r => .ok ⟨sel :: r.sels, r.removed, r.found⟩

/-- Core recursion of `_add_pagination_filter`, by structural recursion on
the query path.  At the path's end the target vertex's selections are
rewritten by `processTargetSelections` and, when no child matches the
pagination field, a fresh output-less selection carrying only `dirToAdd` is
inserted first; on a nonempty path the matching children are rewritten
recursively and a missing child is the Python `AssertionError`.  A missing
selection set is the Python `AttributeError` (empty path, where
`query_ast.selection_set.selections` is accessed directly) or
`AssertionError` (nonempty path, explicit check). -/
def addPaginationFilterGo (paginationField : String) (dirToAdd : DirectiveNode) :
    List String → AstNode → Except PaginationError (AstNode × List String)
  | [] => fun queryAst =>
    match queryAst.selectionSet with
    | none => .error .attributeError
    | some sels =>
      match processTargetSelections paginationField dirToAdd sels with
      | .error e => .error e
      | .ok r =>
        let newSelections :=
          if r.found then r.sels else AstNode.mk paginationField [dirToAdd] none :: r.sels
        .ok (AstNode.mk queryAst.name queryAst.directives (some newSelections), r.removed)
  | p :: restPath => fun queryAst =>
    match queryAst.selectionSet with
    | none => .error .assertionError
    | some sels =>
      match processPathSelections (addPaginationFilterGo paginationField dirToAdd restPath) p sels with
      | .error e => .error e
      | .ok r =>
        if r.found then
          .ok (AstNode.mk queryAst.name queryAst.directives (some r.sels), r.removed)
        else
          .error .assertionError

/-- Embedding of `_add_pagination_filter`, in the source's argument order:
add `directiveToAdd` to `paginationField` at the end of `queryPath` inside
`queryAst`, returning the rebuilt AST and the removed parameter names. -/
def addPaginationFilter (queryAst : AstNode) (queryPath : List String)
    (paginationField : String) (directiveToAdd : DirectiveNode) :
    Except PaginationError (AstNode × List String) :=
  addPaginationFilterGo paginationField directiveToAdd queryPath queryAst

/-- Modelled from the spec: `get_only_query_definition` from the missing
module `ast_manipulation`.  The document's single operation definition is
returned; any other shape fails with the supplied error type
(`GraphQLError` at the use site in `generate_parameterized_queries`). -/
def getOnlyQueryDefinition (documentAst : DocumentNode) :
    Except PaginationError AstNode :=
  match documentAst.definitions with
  | [d] => .ok d
  | _ => .error .graphQLError

/-- Modelled from the spec: `VertexPartitionPlan` from the missing module
`pagination_planning` — an ordered path of field names from the query root
to the target vertex, the pagination field at that vertex, and a target
partition count. -/
structure VertexPartitionPlan : Type where
  queryPath : List String
  paginationField : String
  numberOfSplits : Int

/-- Modelled from the spec: `PaginationPlan` from the missing module
`pagination_planning` — an ordered collection of vertex partition plans. -/
structure PaginationPlan : Type where
  vertexPartitions : List VertexPartitionPlan

/-- Modelled from the spec: `PaginationAdvisory` from the missing module
`pagination_planning` — an informational record carried to the caller. -/
structure PaginationAdvisory : Type where
  message : String

/-- Modelled from the spec: `QueryPlanningSchemaInfo` (schema and statistics
context), opaque to the embedded code. -/
structure QueryPlanningSchemaInfo : Type where

/-- Modelled from the spec: `QueryPlanningAnalysis` from the missing module
`cost_estimation.analysis` — the fields read by `paginate_query_ast`: the
query (AST plus parameters), the printed query string (used only in error
messages), the cardinality estimate, and the schema info. -/
structure QueryPlanningAnalysis (V : Type) : Type where
  queryString : String
  astWithParameters : ASTWithParameters V
  cardinalityEstimate : ℚ
  schemaInfo : QueryPlanningSchemaInfo

/-- Modelled from the spec: `PageAndRemainder` from the missing module
`typedefs` — the original query, the requested page size, the page query,
and the ordered remainder queries. -/
structure PageAndRemainder (Q : Type) : Type where
  wholeQuery : Q
  pageSize : Int
  onePage : Q
  remainder : List Q

/-- Embedding of `generate_parameterized_queries` exactly as defined in
`query_parameterizer.py`: its parameters are `(schema_info, query,
vertex_partition)` — it takes no boundary value — and it returns the page
query, the remainder query, and the generated parameter name as a triple.
The output parameter mappings are only pruned; the generated name is bound
in neither of them. -/
def generateParameterizedQueries {V : Type} (schemaInfo : QueryPlanningSchemaInfo)
    (query : ASTWithParameters V) (vertexPartition : VertexPartitionPlan) :
    Except PaginationError (ASTWithParameters V × ASTWithParameters V × String) :=
  match getOnlyQueryDefinition query.queryAst with
  | .error e => .error e
  | .ok queryType =>
    let paramName := generateNewName "__paged_param" (query.parameters.map Prod.fst)
    match addPaginationFilter queryType vertexPartition.queryPath
        vertexPartition.paginationField (makeBinaryFilterDirectiveNode "<" paramName) with
    | .error e => .error e
    | .ok nextPage =>
      match addPaginationFilter queryType vertexPartition.queryPath
          vertexPartition.paginationField (makeBinaryFilterDirectiveNode ">=" paramName) with
      | .error e => .error e
      | .ok remainderResult =>
        let pageParameters := query.parameters.filter (fun kv => kv.1 ∉ nextPage.2)
        let remainderParameters :=
          query.parameters.filter (fun kv => kv.1 ∉ remainderResult.2)
        .ok (⟨⟨[nextPage.1]⟩, pageParameters⟩,
             ⟨⟨[remainderResult.1]⟩, remainderParameters⟩, paramName)

/-- Embedding of `_estimate_number_of_pages`: reject `page_size < 1` with a
`ValueError`, reject a negative cardinality with an `AssertionError`, and
otherwise return `(result_size + page_size - 1) // page_size` (Python floor
division) clamped up to one.  The unused `query` argument appears only in
the Python error messages. -/
def estimateNumberOfPages (query : String) (resultSize : ℚ) (pageSize : Int) :
    Except PaginationError Int :=
  if pageSize < 1 then .error .valueError
  else if resultSize < 0 then .error .assertionError
  else
    let numPages := Rat.floor ((resultSize + pageSize - 1) / pageSize)
    .ok (if numPages = 0 then 1 else numPages)

/-- Embedding of `paginate_query_ast`.  The external collaborators
`get_pagination_plan` and `generate_parameters_for_vertex_partition`
(modules not under `src/`; the spec treats them as external, consumed only
through their outputs) are passed in as function arguments `getPlan` and
`genParams`; the generator is modelled as its materialized finite value
sequence, from which the source takes only the first element.

In the branch with exactly one vertex partition and a produced parameter,
the source executes `page_query, remainder_query =
generate_parameterized_queries(query_analysis, plan_vertex_partition,
first_param)`.  That call does not fit the callee, whose parameters are
`(schema_info, query, vertex_partition)`: the attribute accesses
`query.query_ast` and `query.parameters` are performed on the vertex
partition plan (which has neither attribute), and the callee's 3-tuple
result would not fit the 2-name unpacking.  The call therefore raises
before any `PageAndRemainder` is built; this is modelled as
`PaginationError.splitCallError`. -/
def paginateQueryAst {V : Type}
    (getPlan : QueryPlanningAnalysis V → Int → PaginationPlan × List PaginationAdvisory)
    (genParams : QueryPlanningSchemaInfo → ASTWithParameters V → VertexPartitionPlan → List V)
    (queryAnalysis : QueryPlanningAnalysis V) (pageSize : Int) :
    Except PaginationError
      (PageAndRemainder (ASTWithParameters V) × List PaginationAdvisory) :=
  if pageSize < 1 then .error .valueError
  else
    match estimateNumberOfPages queryAnalysis.queryString
        queryAnalysis.cardinalityEstimate pageSize with
    | .error e => .error e
    | .ok numPages =>
      if numPages > 1 then
        let planAndAdvisories := getPlan queryAnalysis numPages
        match planAndAdvisories.1.vertexPartitions with
        | [] =>
          .ok (⟨queryAnalysis.astWithParameters, pageSize,
                queryAnalysis.astWithParameters, []⟩, planAndAdvisories.2)
        | [vp] =>
          match (genParams queryAnalysis.schemaInfo
              queryAnalysis.astWithParameters vp).head? with
          | none =>
            .ok (⟨queryAnalysis.astWithParameters, pageSize,
                  queryAnalysis.astWithParameters, []⟩, planAndAdvisories.2)
          | some _firstParam => .error .splitCallError
        | _ :: _ :: _ => .error .notImplementedError
      else
        .ok (⟨queryAnalysis.astWithParameters, pageSize,
              queryAnalysis.astWithParameters, []⟩, [])

/-- The value denoted by a little-endian decimal digit list. -/
def ofDecDigits : List Nat → Nat
  | [] => 0
  | d :: ds => d + 10 * ofDecDigits ds

/-- The operation of a directive as an optional value (the successful
result of `_get_filter_node_operation`, if any). -/
def directiveOperation (d : DirectiveNode) : Option String :=
  (getFilterNodeOperation d).toOption

/-- Directives kept by the same-comparator pruning: those whose operation
differs from the operation being inserted. -/
def keptDirectives (opToAdd : String) (ds : List DirectiveNode) : List DirectiveNode :=
  ds.filter (fun d => ¬ directiveOperation d = some opToAdd)

/-- Parameter names of the directives removed by the same-comparator
pruning, in order. -/
def removedNames (opToAdd : String) (ds : List DirectiveNode) : List String :=
  ds.filterMap (fun d =>
    if directiveOperation d = some opToAdd then (getBinaryFilterNodeParameter d).toOption
    else none)

/-- The rewrite applied to the pagination-field child at the target vertex:
same-comparator directives pruned, the new directive appended, name and
subtree unchanged. -/
def rewriteTargetChild (opToAdd : String) (dirToAdd : DirectiveNode)
    (sel : AstNode) : AstNode :=
  AstNode.mk sel.name (keptDirectives opToAdd sel.directives ++ [dirToAdd]) sel.selectionSet

/-- A directive on the pagination-field child that the pruning loop can
process: its operation is extractable, and if it matches the inserted
operation its parameter name is extractable as well. -/
def DirectiveProcessable (opToAdd : String) (d : DirectiveNode) : Prop :=
  (∃ s, getFilterNodeOperation d = .ok s) ∧
  (directiveOperation d = some opToAdd → ∃ p, getBinaryFilterNodeParameter d = .ok p)

/-- Removed parameter names collected across a target vertex's selections,
in iteration order (only pagination-field children contribute). -/
def collectRemoved (opToAdd paginationField : String) : List AstNode → List String
  | [] => []
  | sel :: rest =>
    (if sel.name = paginationField then removedNames opToAdd sel.directives else []) ++
      collectRemoved opToAdd paginationField rest

/-- Structural sharing along the rewrite path: relates an input node and an
output node of the filter injection.  Off the path every selection is the
identical subtree; on the path the node is rebuilt with the same name and
directives; at the target vertex only pagination-field children change, and
they keep their name and entire selection subtree; when the pagination
field is absent a fresh selection is prepended and all original selections
are kept identical. -/
def PreservesOffPath : List String → String → AstNode → AstNode → Prop
  | [], paginationField => fun node node' =>
    node'.name = node.name ∧ node'.directives = node.directives ∧
    ∃ sels sels', node.selectionSet = some sels ∧ node'.selectionSet = some sels' ∧
      (List.Forall₂ (fun s s' =>
          (s.name ≠ paginationField → s' = s) ∧
          (s.name = paginationField → s'.name = s.name ∧
            s'.selectionSet = s.selectionSet)) sels sels'
       ∨ ∃ newSel, newSel.name = paginationField ∧ newSel.selectionSet = none ∧
          sels' = newSel :: sels)
  | p :: rest, paginationField => fun node node' =>
    node'.name = node.name ∧ node'.directives = node.directives ∧
    ∃ sels sels', node.selectionSet = some sels ∧ node'.selectionSet = some sels' ∧
      List.Forall₂ (fun s s' =>
          (s.name ≠ p → s' = s) ∧
          (s.name = p → PreservesOffPath rest paginationField s s')) sels sels'

/-- Concrete `@output` directive used in the sample queries. -/
def sampleOutputDirective : DirectiveNode :=
  ⟨"output", [⟨"out_name", .stringValue "animal_name"⟩]⟩

/-- Concrete `name` leaf selection used in the sample queries. -/
def sampleNameChild : AstNode :=
  .mk "name" [sampleOutputDirective] none

/-- Concrete operation root of the sample query
`{ Animal { name @output(out_name: "animal_name") } }`. -/
def sampleRoot : AstNode :=
  .mk "query" [] (some [.mk "Animal" [] (some [sampleNameChild])])

/-- Sample vertex partition plan: split `Animal` on `uuid` into four. -/
def sampleVP : VertexPartitionPlan :=
  ⟨["Animal"], "uuid", 4⟩

/-- Sample query: the sample AST with one (already `__paged_param`-shaped)
parameter. -/
def sampleQuery8 : ASTWithParameters Nat :=
  ⟨⟨[sampleRoot]⟩, [("__paged_param_0", 3)]⟩

/-- Expected page root for `sampleQuery8`: a fresh `uuid` selection with the
`<` filter on the second candidate name, prepended to `Animal`. -/
def samplePageRoot8 : AstNode :=
  .mk "query" [] (some [.mk "Animal" []
    (some [.mk "uuid" [makeBinaryFilterDirectiveNode "<" "__paged_param_1"] none,
           sampleNameChild])])

/-- Expected remainder root for `sampleQuery8`, with the `>=` filter. -/
def sampleRemRoot8 : AstNode :=
  .mk "query" [] (some [.mk "Animal" []
    (some [.mk "uuid" [makeBinaryFilterDirectiveNode ">=" "__paged_param_1"] none,
           sampleNameChild])])

/-- Concrete `uuid` child carrying a pre-existing `<` filter on parameter
`existing`. -/
def c2UuidChild : AstNode :=
  .mk "uuid" [makeBinaryFilterDirectiveNode "<" "existing"] none

/-- Concrete operation root whose `Animal` vertex already filters `uuid`
with `<` on `$existing`. -/
def c2Root : AstNode :=
  .mk "query" [] (some [.mk "Animal" [] (some [c2UuidChild, sampleNameChild])])

/-- Expected page root for `c2Root`: the `<` filter on `existing` is pruned
and replaced by the `<` filter on the fresh boundary name. -/
def c2PageRoot : AstNode :=
  .mk "query" [] (some [.mk "Animal" []
    (some [.mk "uuid" [makeBinaryFilterDirectiveNode "<" "__paged_param_0"] none,
           sampleNameChild])])

/-- Expected remainder root for `c2Root`: the `<` filter on `existing` is
kept and the `>=` filter on the fresh boundary name is appended. -/
def c2RemRoot : AstNode :=
  .mk "query" [] (some [.mk "Animal" []
    (some [.mk "uuid" [makeBinaryFilterDirectiveNode "<" "existing",
                       makeBinaryFilterDirectiveNode ">=" "__paged_param_0"] none,
           sampleNameChild])])

theorem AstNode.name_mk (n : String) (ds : List DirectiveNode)
    (ss : Option (List AstNode)) : (AstNode.mk n ds ss).name = n := rfl

theorem AstNode.directives_mk (n : String) (ds : List DirectiveNode)
    (ss : Option (List AstNode)) : (AstNode.mk n ds ss).directives = ds := rfl

theorem AstNode.selectionSet_mk (n : String) (ds : List DirectiveNode)
    (ss : Option (List AstNode)) : (AstNode.mk n ds ss).selectionSet = ss := rfl

theorem ofDecDigits_decDigitsAux :
    ∀ fuel n, n ≤ fuel → ofDecDigits (decDigitsAux fuel n) = n := by
  intro fuel
  induction fuel with
  | zero =>
    intro n hn
    have : n = 0 := Nat.le_zero.mp hn
    subst this
    simp [decDigitsAux, ofDecDigits]
  | succ f ih =>
    intro n hn
    by_cases h : n = 0
    · simp [decDigitsAux, h, ofDecDigits]
    · have hdiv : n / 10 ≤ f := by
        have : n / 10 < n := Nat.div_lt_self (Nat.pos_of_ne_zero h) (by norm_num)
        omega
      simp [decDigitsAux, h, ofDecDigits, ih _ hdiv]
      omega

theorem decDigits_inj {n m : Nat} (h : decDigits n = decDigits m) : n = m := by
  have hn := ofDecDigits_decDigitsAux n n (le_refl n)
  have hm := ofDecDigits_decDigitsAux m m (le_refl m)
  rw [← hn, ← hm]
  unfold decDigits at h
  rw [h]

theorem decDigitsAux_lt_ten :
    ∀ fuel n, ∀ d ∈ decDigitsAux fuel n, d < 10 := by
  intro fuel
  induction fuel with
  | zero => intro n d hd; simp [decDigitsAux] at hd
  | succ f ih =>
    intro n d hd
    by_cases h : n = 0
    · simp [decDigitsAux, h] at hd
    · simp only [decDigitsAux, if_neg h, List.mem_cons] at hd
      rcases hd with hd | hd
      · subst hd; exact Nat.mod_lt _ (by norm_num)
      · exact ih _ _ hd

theorem digitChar_inj_lt :
    ∀ a < 10, ∀ b < 10, digitChar a = digitChar b → a = b := by decide

theorem map_digitChar_inj :
    ∀ l1 l2 : List Nat, (∀ d ∈ l1, d < 10) → (∀ d ∈ l2, d < 10) →
      l1.map digitChar = l2.map digitChar → l1 = l2 := by
  intro l1
  induction l1 with
  | nil => intro l2 _ _ h; cases l2 <;> simp_all
  | cons a l ih =>
    intro l2 h1 h2 h
    cases l2 with
    | nil => simp at h
    | cons b l' =>
      simp only [List.map_cons, List.cons.injEq] at h
      have ha : a = b :=
        digitChar_inj_lt a (h1 a (by simp)) b (h2 b (by simp)) h.1
      have hl : l = l' :=
        ih l' (fun d hd => h1 d (by simp [hd])) (fun d hd => h2 d (by simp [hd])) h.2
      rw [ha, hl]

theorem decimalRepr_inj {n m : Nat} (h : decimalRepr n = decimalRepr m) : n = m := by
  have key : ∀ k : Nat, k ≠ 0 →
      String.mk (((decDigits k).reverse).map digitChar) = "0" → False := by
    intro k hk hstr
    have hdata : ((decDigits k).reverse).map digitChar = ['0'] := by
      have := congrArg String.data hstr
      simpa using this
    have h0 : ((decDigits k).reverse) = [0] := by
      have h10 : ∀ d ∈ (decDigits k).reverse, d < 10 := by
        intro d hd
        exact decDigitsAux_lt_ten k k d (List.mem_reverse.mp hd)
      have : ((decDigits k).reverse).map digitChar = [0].map digitChar := by
        simpa [digitChar] using hdata
      exact map_digitChar_inj _ _ h10 (by simp) this
    have : decDigits k = [0] := by
      have := congrArg List.reverse h0
      simpa using this
    have : k = 0 := by
      have hr := ofDecDigits_decDigitsAux k k (le_refl k)
      rw [show decDigitsAux k k = decDigits k from rfl, this] at hr
      simpa [ofDecDigits] using hr.symm
    exact hk this
  by_cases hn : n = 0 <;> by_cases hm : m = 0
  · rw [hn, hm]
  · exact absurd (by simpa [decimalRepr, hn, hm] using h.symm) (fun hh => key m hm hh)
  · exact absurd (by simpa [decimalRepr, hn, hm] using h) (fun hh => key n hn hh)
  · have hdata : ((decDigits n).reverse).map digitChar =
        ((decDigits m).reverse).map digitChar := by
      have := congrArg String.data (by simpa [decimalRepr, hn, hm] using h)
      simpa using this
    have hrev : (decDigits n).reverse = (decDigits m).reverse :=
      map_digitChar_inj _ _
        (fun d hd => decDigitsAux_lt_ten n n d (List.mem_reverse.mp hd))
        (fun d hd => decDigitsAux_lt_ten m m d (List.mem_reverse.mp hd)) hdata
    have : decDigits n = decDigits m := by
      have := congrArg List.reverse hrev
      simpa using this
    exact decDigits_inj this

theorem string_append_left_cancel {s t u : String} (h : s ++ t = s ++ u) : t = u := by
  cases s with
  | mk l =>
  cases t with
  | mk lt =>
  cases u with
  | mk lu =>
  simp [String.ext_iff] at h ⊢
  exact h

theorem nameCandidate_inj (baseName : String) :
    Function.Injective (nameCandidate baseName) := by
  intro i j h
  unfold nameCandidate at h
  have : decimalRepr i = decimalRepr j := by
    apply string_append_left_cancel (s := baseName ++ "_")
    simpa [String.append_assoc] using h
  exact decimalRepr_inj this

theorem exists_free_candidate (baseName : String) (taken : List String) :
    ∃ j, j ≤ taken.length ∧ nameCandidate baseName j ∉ taken := by
  by_contra hcon
  push_neg at hcon
  have hsub : (Finset.range (taken.length + 1)).image (nameCandidate baseName) ⊆
      taken.toFinset := by
    intro s hs
    rw [Finset.mem_image] at hs
    obtain ⟨j, hj, rfl⟩ := hs
    rw [Finset.mem_range] at hj
    exact List.mem_toFinset.mpr (hcon j (by omega))
  have himg : ((Finset.range (taken.length + 1)).image (nameCandidate baseName)).card =
      taken.length + 1 := by
    rw [Finset.card_image_of_injective _ (nameCandidate_inj baseName), Finset.card_range]
  have h1 := Finset.card_le_card hsub
  have h2 := List.toFinset_card_le taken
  omega

theorem generateNewNameAux_spec (baseName : String) (taken : List String) :
    ∀ fuel index,
      (∃ j, index ≤ j ∧ j ≤ index + fuel ∧ nameCandidate baseName j ∉ taken) →
      ∃ i, index ≤ i ∧
        generateNewNameAux baseName taken fuel index = nameCandidate baseName i ∧
        nameCandidate baseName i ∉ taken ∧
        ∀ k, index ≤ k → k < i → nameCandidate baseName k ∈ taken := by
  intro fuel
  induction fuel with
  | zero =>
    intro index hex
    obtain ⟨j, hj1, hj2, hj3⟩ := hex
    have hji : j = index := by omega
    subst hji
    exact ⟨j, le_refl _, rfl, hj3, fun k h1 h2 => absurd h2 (by omega)⟩
  | succ f ih =>
    intro index hex
    by_cases hmem : nameCandidate baseName index ∈ taken
    · have hex' : ∃ j, index + 1 ≤ j ∧ j ≤ (index + 1) + f ∧
          nameCandidate baseName j ∉ taken := by
        obtain ⟨j, hj1, hj2, hj3⟩ := hex
        have : j ≠ index := fun hji => hj3 (hji ▸ hmem)
        exact ⟨j, by omega, by omega, hj3⟩
      obtain ⟨i, hi1, hi2, hi3, hi4⟩ := ih (index + 1) hex'
      refine ⟨i, by omega, ?_, hi3, ?_⟩
      · simpa [generateNewNameAux, hmem] using hi2
      · intro k hk1 hk2
        rcases Nat.eq_or_lt_of_le hk1 with hk | hk
        · rw [← hk]; exact hmem
        · exact hi4 k (by omega) hk2
    · exact ⟨index, le_refl _, by simp [generateNewNameAux, hmem], hmem,
        fun k h1 h2 => absurd h2 (by omega)⟩

theorem generateNewName_spec (baseName : String) (taken : List String) :
    ∃ i, generateNewName baseName taken = nameCandidate baseName i ∧
      nameCandidate baseName i ∉ taken ∧
      ∀ k < i, nameCandidate baseName k ∈ taken := by
  obtain ⟨j, hj1, hj2⟩ := exists_free_candidate baseName taken
  obtain ⟨i, _, h2, h3, h4⟩ := generateNewNameAux_spec baseName taken
    (taken.length + 1) 0 ⟨j, by omega, by omega, hj2⟩
  exact ⟨i, h2, h3, fun k hk => h4 k (by omega) hk⟩

theorem generateNewName_not_mem (baseName : String) (taken : List String) :
    generateNewName baseName taken ∉ taken := by
  obtain ⟨i, h1, h2, _⟩ := generateNewName_spec baseName taken
  rw [h1]
  exact h2

theorem ratFloor_eq_intFloor (q : ℚ) : Rat.floor q = ⌊q⌋ := by
  rw [Rat.floor_def', ← Rat.floor_def]

/-- C9: `_estimate_number_of_pages` raises the invalid-argument failure
(`ValueError`) exactly when `page_size < 1`, for every cardinality; given
`page_size ≥ 1` it raises the invalid-state failure (`AssertionError`)
exactly when the cardinality is negative; in all remaining cases it returns
normally with an integer at least one. -/
theorem estimateNumberOfPages_error_spec (query : String) (resultSize : ℚ)
    (pageSize : Int) :
    (estimateNumberOfPages query resultSize pageSize = .error .valueError ↔
      pageSize < 1)
    ∧ (1 ≤ pageSize →
        (estimateNumberOfPages query resultSize pageSize = .error .assertionError ↔
          resultSize < 0))
    ∧ (1 ≤ pageSize → 0 ≤ resultSize →
        ∃ n, estimateNumberOfPages query resultSize pageSize = .ok n ∧ 1 ≤ n) := by
  by_cases h1 : pageSize < 1
  · exact ⟨by simp [estimateNumberOfPages, h1],
      fun hp => absurd h1 (by omega),
      fun hp _ => absurd h1 (by omega)⟩
  · by_cases h2 : resultSize < 0
    · refine ⟨by simp [estimateNumberOfPages, h1, h2], fun hp => ?_, fun hp hr => absurd h2 (by linarith)⟩
      simp [estimateNumberOfPages, h1, h2]
    · refine ⟨by simp [estimateNumberOfPages, h1, h2], fun hp => ?_, fun hp hr => ?_⟩
      · simp [estimateNumberOfPages, h1, h2]
      · refine ⟨if Rat.floor ((resultSize + pageSize - 1) / pageSize) = 0 then 1
          else Rat.floor ((resultSize + pageSize - 1) / pageSize),
          by simp [estimateNumberOfPages, h1, h2], ?_⟩
        have hq1 : (1 : ℚ) ≤ (pageSize : ℚ) := by exact_mod_cast (by omega : (1:Int) ≤ pageSize)
        have hnum : (0 : ℚ) ≤ resultSize + pageSize - 1 := by
          push_neg at h2
          linarith
        have hfloor : 0 ≤ Rat.floor ((resultSize + pageSize - 1) / pageSize) := by
          rw [ratFloor_eq_intFloor]
          refine Int.floor_nonneg.mpr (div_nonneg hnum (by linarith))
        by_cases h3 : Rat.floor ((resultSize + pageSize - 1) / pageSize) = 0
        · simp [h3]
        · simp only [if_neg h3]
          omega

/-- C9 witness: at cardinality `5` and page size `2` the estimator returns
normally with a value at least one. -/
theorem estimateNumberOfPages_error_spec_witness :
    ∃ n, estimateNumberOfPages "q" 5 2 = .ok n ∧ 1 ≤ n :=
  (estimateNumberOfPages_error_spec "q" 5 2).2.2 (by norm_num) (by norm_num)

/-- C3: the claim states that for every real cardinality `c ≥ 0` and page
size `p ≥ 1` the estimator returns `max(1, ⌈c / p⌉)`.  The code computes
`int((result_size + page_size - 1) // page_size)` instead, which differs
from the claimed value on non-integer cardinalities, contradicting the
code's own comment that the expression rounds the fraction up: at
cardinality `3/2` and page size `1` the code returns `1` while
`max(1, ⌈(3/2)/1⌉) = 2`. -/
theorem estimateNumberOfPages_fractional_divergence :
    estimateNumberOfPages "q" ((3 : ℚ) / 2) 1 = .ok 1
    ∧ max 1 ⌈((3 : ℚ) / 2) / ((1 : Int) : ℚ)⌉ = 2 := by
  constructor
  · have hfl : Rat.floor ((3 : ℚ) / 2) = 1 := by
      rw [ratFloor_eq_intFloor]
      norm_num
    norm_num [estimateNumberOfPages, hfl]
  · have hc : ⌈((3 : ℚ) / 2) / ((1 : Int) : ℚ)⌉ = 2 := by
      rw [show ((3 : ℚ) / 2) / ((1 : Int) : ℚ) = 3 / 2 by norm_num, Int.ceil_eq_iff]
      norm_num
    rw [hc]
    omega

/-- C4: when the estimated page count exceeds one and the selector's plan
holds more than one vertex partition, `paginate_query_ast` fails with the
not-implemented condition and produces no `PageAndRemainder` value. -/
theorem paginateQueryAst_multi_partition {V : Type}
    (getPlan : QueryPlanningAnalysis V → Int → PaginationPlan × List PaginationAdvisory)
    (genParams : QueryPlanningSchemaInfo → ASTWithParameters V → VertexPartitionPlan → List V)
    (queryAnalysis : QueryPlanningAnalysis V) (pageSize : Int) (n : Int)
    (vp1 vp2 : VertexPartitionPlan) (rest : List VertexPartitionPlan)
    (hn : estimateNumberOfPages queryAnalysis.queryString
      queryAnalysis.cardinalityEstimate pageSize = .ok n)
    (h1 : 1 < n)
    (hplan : (getPlan queryAnalysis n).1.vertexPartitions = vp1 :: vp2 :: rest) :
    paginateQueryAst getPlan genParams queryAnalysis pageSize =
      .error .notImplementedError := by
  have hp : ¬ pageSize < 1 := by
    intro hp
    rw [estimateNumberOfPages, if_pos hp] at hn
    exact absurd hn (by simp)
  unfold paginateQueryAst
  rw [if_neg hp, hn]
  simp only [if_pos h1, hplan]

/-- C4 witness: a concrete analysis with cardinality `10`, page size `1`,
and a selector returning two partition directives makes the orchestrator
fail with the not-implemented condition. -/
theorem paginateQueryAst_multi_partition_witness :
    paginateQueryAst
      (fun _ _ => (⟨[⟨["Animal"], "uuid", 4⟩, ⟨["Animal"], "name", 4⟩]⟩, []))
      (fun _ _ _ => ([] : List Nat))
      ⟨"sample", ⟨⟨[AstNode.mk "query" [] (some [])]⟩, []⟩, 10, ⟨⟩⟩ 1 =
      .error .notImplementedError := by
  refine paginateQueryAst_multi_partition _ _ _ 1 10 _ _ [] ?_ (by norm_num) rfl
  have hfl : Rat.floor ((10 : ℚ)) = 10 := by
    rw [ratFloor_eq_intFloor]
    norm_num
  norm_num [estimateNumberOfPages, hfl]

/-- C6: whenever the estimated page count is at most one, or the selector's
plan has zero vertex partitions, or the parameter generator yields no
value, `paginate_query_ast` performs no split: the page query and
`whole_query` are the original query, the remainder tuple is empty, the
page size is the requested one, and the advisories are empty in the first
case and exactly the selector's advisories in the other two. -/
theorem paginateQueryAst_no_split {V : Type}
    (getPlan : QueryPlanningAnalysis V → Int → PaginationPlan × List PaginationAdvisory)
    (genParams : QueryPlanningSchemaInfo → ASTWithParameters V → VertexPartitionPlan → List V)
    (queryAnalysis : QueryPlanningAnalysis V) (pageSize n : Int)
    (hn : estimateNumberOfPages queryAnalysis.queryString
      queryAnalysis.cardinalityEstimate pageSize = .ok n) :
    (n ≤ 1 → paginateQueryAst getPlan genParams queryAnalysis pageSize =
      .ok (⟨queryAnalysis.astWithParameters, pageSize,
            queryAnalysis.astWithParameters, []⟩, []))
    ∧ ((getPlan queryAnalysis n).1.vertexPartitions = [] → 1 < n →
      paginateQueryAst getPlan genParams queryAnalysis pageSize =
      .ok (⟨queryAnalysis.astWithParameters, pageSize,
            queryAnalysis.astWithParameters, []⟩, (getPlan queryAnalysis n).2))
    ∧ (∀ vp, (getPlan queryAnalysis n).1.vertexPartitions = [vp] →
      genParams queryAnalysis.schemaInfo queryAnalysis.astWithParameters vp = [] →
      1 < n →
      paginateQueryAst getPlan genParams queryAnalysis pageSize =
      .ok (⟨queryAnalysis.astWithParameters, pageSize,
            queryAnalysis.astWithParameters, []⟩, (getPlan queryAnalysis n).2)) := by
  have hp : ¬ pageSize < 1 := by
    intro hp
    rw [estimateNumberOfPages, if_pos hp] at hn
    exact absurd hn (by simp)
  refine ⟨fun hle => ?_, fun hplan hgt => ?_, fun vp hplan hgen hgt => ?_⟩
  · unfold paginateQueryAst
    rw [if_neg hp, hn]
    simp only [if_neg (show ¬ n > 1 by omega)]
  · unfold paginateQueryAst
    rw [if_neg hp, hn]
    simp only [if_pos (show n > 1 from hgt), hplan]
  · unfold paginateQueryAst
    rw [if_neg hp, hn]
    simp only [if_pos (show n > 1 from hgt), hplan, hgen, List.head?]

/-- C6 witness: at cardinality `1` and page size `1` the estimate is one
page, and the orchestrator returns the original query unsplit with empty
remainder and advisories. -/
theorem paginateQueryAst_no_split_witness :
    paginateQueryAst (fun _ _ => (⟨[]⟩, [])) (fun _ _ _ => ([] : List Nat))
      ⟨"one", ⟨⟨[AstNode.mk "query" [] (some [])]⟩, []⟩, 1, ⟨⟩⟩ 1 =
      .ok (⟨⟨⟨[AstNode.mk "query" [] (some [])]⟩, []⟩, 1,
            ⟨⟨[AstNode.mk "query" [] (some [])]⟩, []⟩, []⟩, []) := by
  have hfl : Rat.floor ((1 : ℚ)) = 1 := by
    rw [ratFloor_eq_intFloor]
    norm_num
  have hn : estimateNumberOfPages "one" 1 1 = .ok 1 := by
    norm_num [estimateNumberOfPages, hfl]
  exact (paginateQueryAst_no_split _ _ _ 1 1 hn).1 (by norm_num)

/-- C1: the claim states that with more than one estimated page, a plan
with exactly one vertex partition, and a generator yielding a boundary
value, `paginate_query_ast` returns a `PageAndRemainder` holding the two
queries produced by the Query Parameterizer for the directive's path,
field, and first boundary value.  In the source, that branch executes
`page_query, remainder_query = generate_parameterized_queries(
query_analysis, plan_vertex_partition, first_param)`, which does not fit
the callee — `generate_parameterized_queries(schema_info, query,
vertex_partition)` takes no boundary value, performs `query.query_ast` /
`query.parameters` attribute accesses on the vertex partition plan, and
returns a 3-tuple that would not fit the two-name unpacking — so the call
raises and no `PageAndRemainder` is produced.  This theorem evaluates the
embedded orchestrator at a concrete input reaching that branch. -/
theorem paginateQueryAst_split_branch_raises :
    paginateQueryAst
      (fun _ _ => (⟨[⟨["Animal"], "uuid", 4⟩]⟩, [⟨"advice"⟩]))
      (fun _ _ _ => [(7 : Nat)])
      ⟨"sample", ⟨⟨[AstNode.mk "query" [] (some [])]⟩, []⟩, 10, ⟨⟩⟩ 1 =
      .error .splitCallError := by
  have hfl : Rat.floor ((10 : ℚ)) = 10 := by
    rw [ratFloor_eq_intFloor]
    norm_num
  have hn : estimateNumberOfPages "sample" 10 1 = .ok 10 := by
    norm_num [estimateNumberOfPages, hfl]
  simp [paginateQueryAst, hn]

/-- C10: the directive built by `_make_binary_filter_directive_node` is
named `filter`, its first argument holds exactly the given `op_name`, its
second argument is a one-element list holding exactly `"$"` followed by the
parameter name, and extracting the operation from the constructed directive
with `_get_filter_node_operation` returns the `op_name` — the fact the
same-comparator pruning in `_add_pagination_filter` relies on to recognize
a previously injected pagination filter of the same comparator. -/
theorem makeBinaryFilterDirectiveNode_spec (opName paramName : String) :
    (makeBinaryFilterDirectiveNode opName paramName).name = "filter"
    ∧ (makeBinaryFilterDirectiveNode opName paramName).arguments.map
        ArgumentNode.name = ["op_name", "value"]
    ∧ (makeBinaryFilterDirectiveNode opName paramName).arguments.map
        ArgumentNode.value =
        [.stringValue opName, .listValue [.stringValue ("$" ++ paramName)]]
    ∧ getFilterNodeOperation (makeBinaryFilterDirectiveNode opName paramName) =
        .ok opName :=
  ⟨rfl, rfl, rfl, rfl⟩

theorem pruneDirectives_spec (dirToAdd : DirectiveNode) (opToAdd : String)
    (hop : getFilterNodeOperation dirToAdd = .ok opToAdd) :
    ∀ ds : List DirectiveNode, (∀ d ∈ ds, DirectiveProcessable opToAdd d) →
      pruneDirectives dirToAdd ds =
        .ok (keptDirectives opToAdd ds, removedNames opToAdd ds) := by
  intro ds
  induction ds with
  | nil => intro _; simp [pruneDirectives, keptDirectives, removedNames]
  | cons d ds ih =>
    intro h
    obtain ⟨⟨s, hs⟩, hparam⟩ := h d (by simp)
    have hrest := ih (fun d' hd' => h d' (by simp [hd']))
    by_cases heq : s = opToAdd
    · subst heq
      obtain ⟨p, hp⟩ := hparam (by simp [directiveOperation, hs, Except.toOption])
      simp [pruneDirectives, hs, hop, hp, hrest, keptDirectives, removedNames,
        directiveOperation, Except.toOption]
    · simp [pruneDirectives, hs, hop, heq, hrest, keptDirectives, removedNames,
        directiveOperation, Except.toOption, Ne.symm heq]

theorem getParameterName_dollar (p : String) :
    getParameterName ("$" ++ p) = .ok p := by
  have hdata : ("$" ++ p).data = '$' :: p.data := by
    cases p with
    | mk l => simp
  rw [getParameterName, hdata]
  cases p with
  | mk l => rfl

theorem getBinaryFilterNodeParameter_make (opName p : String) :
    getBinaryFilterNodeParameter (makeBinaryFilterDirectiveNode opName p) = .ok p := by
  simp [getBinaryFilterNodeParameter, makeBinaryFilterDirectiveNode,
    getParameterName_dollar]

theorem makeBinaryFilterDirectiveNode_processable (opName p opToAdd : String) :
    DirectiveProcessable opToAdd (makeBinaryFilterDirectiveNode opName p) :=
  ⟨⟨opName, rfl⟩, fun _ => ⟨p, getBinaryFilterNodeParameter_make opName p⟩⟩

theorem processTargetSelections_spec (paginationField : String)
    (dirToAdd : DirectiveNode) (opToAdd : String)
    (hop : getFilterNodeOperation dirToAdd = .ok opToAdd) :
    ∀ sels : List AstNode,
      (∀ sel ∈ sels, sel.name = paginationField →
        ∀ d ∈ sel.directives, DirectiveProcessable opToAdd d) →
      processTargetSelections paginationField dirToAdd sels =
        .ok ⟨sels.map (fun sel => if sel.name = paginationField
                then rewriteTargetChild opToAdd dirToAdd sel else sel),
             collectRemoved opToAdd paginationField sels,
             sels.any (fun sel => sel.name == paginationField)⟩ := by
  intro sels
  induction sels with
  | nil => intro _; simp [processTargetSelections, collectRemoved]
  | cons sel rest ih =>
    intro h
    have hrest := ih (fun s hs hn => h s (by simp [hs]) hn)
    by_cases hname : sel.name = paginationField
    · have hprune := pruneDirectives_spec dirToAdd opToAdd hop sel.directives
        (h sel (by simp) hname)
      simp [processTargetSelections, hname, hprune, hrest, rewriteTargetChild,
        collectRemoved]
    · simp [processTargetSelections, hname, hrest, collectRemoved]

theorem map_rewrite_id_of_none_matching (paginationField : String)
    (g : AstNode → AstNode) :
    ∀ sels : List AstNode,
      sels.any (fun sel => sel.name == paginationField) = false →
      sels.map (fun sel => if sel.name = paginationField then g sel else sel) = sels := by
  intro sels
  induction sels with
  | nil => intro _; simp
  | cons sel rest ih =>
    intro h
    simp only [List.any_cons, Bool.or_eq_false_iff, beq_eq_false_iff_ne] at h
    simp [if_neg h.1, ih (by simpa using h.2)]

/-- C5: at the target vertex, when a child selection on the pagination
field exists, every child on that field gets its same-comparator filter
directives removed (their parameter names recorded in order), its other
directives preserved, and the new filter appended; every other child is
passed through unchanged.  When no child on the pagination field exists, a
new selection on that field carrying only the new filter and no selection
set (requesting no output) is inserted as the first selection, all
pre-existing selections left unchanged and nothing recorded as removed. -/
theorem addPaginationFilter_target_spec (vertexName : String)
    (vertexDirectives : List DirectiveNode) (sels : List AstNode)
    (paginationField : String) (dirToAdd : DirectiveNode) (opToAdd : String)
    (hop : getFilterNodeOperation dirToAdd = .ok opToAdd)
    (hwf : ∀ sel ∈ sels, sel.name = paginationField →
      ∀ d ∈ sel.directives, DirectiveProcessable opToAdd d) :
    addPaginationFilter (AstNode.mk vertexName vertexDirectives (some sels)) []
        paginationField dirToAdd =
      .ok (AstNode.mk vertexName vertexDirectives (some (
            if sels.any (fun sel => sel.name == paginationField) then
              sels.map (fun sel => if sel.name = paginationField
                then rewriteTargetChild opToAdd dirToAdd sel else sel)
            else
              AstNode.mk paginationField [dirToAdd] none :: sels)),
          collectRemoved opToAdd paginationField sels) := by
  have hpts := processTargetSelections_spec paginationField dirToAdd opToAdd hop sels hwf
  by_cases hfound : sels.any (fun sel => sel.name == paginationField) = true
  · simp only [addPaginationFilter, addPaginationFilterGo, AstNode.selectionSet_mk,
      AstNode.name_mk, AstNode.directives_mk, hpts, hfound, eq_self_iff_true, if_true]
  · have hfalse : sels.any (fun sel => sel.name == paginationField) = false := by
      simpa using hfound
    have hid := map_rewrite_id_of_none_matching paginationField
      (rewriteTargetChild opToAdd dirToAdd) sels hfalse
    simp only [addPaginationFilter, addPaginationFilterGo, AstNode.selectionSet_mk,
      AstNode.name_mk, AstNode.directives_mk, hpts, hfalse, Bool.false_eq_true,
      if_false, hid]

/-- C5 witness: at a concrete `Animal` vertex whose `uuid` child carries an
existing `<` filter on parameter `old` plus an `output` directive, inserting
a `<` filter on parameter `B` removes the old `<` filter (recording `old`),
keeps the `output` directive, appends the new filter, and leaves the `name`
sibling untouched. -/
theorem addPaginationFilter_target_spec_witness :
    addPaginationFilter
      (AstNode.mk "Animal" []
        (some [AstNode.mk "uuid"
                 [makeBinaryFilterDirectiveNode "<" "old",
                  ⟨"output", [⟨"out_name", ValueNode.stringValue "animal_name"⟩]⟩] none,
               AstNode.mk "name" [] none]))
      [] "uuid" (makeBinaryFilterDirectiveNode "<" "B") =
      .ok (AstNode.mk "Animal" []
        (some [AstNode.mk "uuid"
                 [⟨"output", [⟨"out_name", ValueNode.stringValue "animal_name"⟩]⟩,
                  makeBinaryFilterDirectiveNode "<" "B"] none,
               AstNode.mk "name" [] none]),
           ["old"]) := by
  refine Eq.trans (addPaginationFilter_target_spec "Animal" [] _ "uuid"
    (makeBinaryFilterDirectiveNode "<" "B") "<" rfl ?_) ?_
  · intro sel hsel hname d hd
    simp only [List.mem_cons, List.not_mem_nil, or_false] at hsel
    rcases hsel with rfl | rfl
    · simp only [AstNode.directives_mk, List.mem_cons, List.not_mem_nil, or_false] at hd
      rcases hd with rfl | rfl
      · exact makeBinaryFilterDirectiveNode_processable "<" "old" "<"
      · exact ⟨⟨"animal_name", rfl⟩, fun hc => absurd hc (by decide)⟩
    · exact absurd hname (by decide)
  · rfl

theorem processTargetSelections_forall2 (paginationField : String)
    (dirToAdd : DirectiveNode) :
    ∀ sels r, processTargetSelections paginationField dirToAdd sels = .ok r →
      List.Forall₂ (fun s s' =>
        (s.name ≠ paginationField → s' = s) ∧
        (s.name = paginationField → s'.name = s.name ∧
          s'.selectionSet = s.selectionSet)) sels r.sels := by
  intro sels
  induction sels with
  | nil =>
    intro r h
    simp only [processTargetSelections] at h
    injection h with h1
    subst h1
    exact List.Forall₂.nil
  | cons sel rest ih =>
    intro r h
    simp only [processTargetSelections] at h
    by_cases hname : sel.name = paginationField
    · rw [if_pos hname] at h
      cases hpr : pruneDirectives dirToAdd sel.directives with
      | error e => rw [hpr] at h; simp at h
      | ok pr =>
        rw [hpr] at h
        cases hrec : processTargetSelections paginationField dirToAdd rest with
        | error e => rw [hrec] at h; simp at h
        | ok r2 =>
          rw [hrec] at h
          injection h with h1
          subst h1
          exact List.Forall₂.cons
            ⟨fun hne => absurd hname hne, fun _ => ⟨rfl, rfl⟩⟩ (ih r2 hrec)
    · rw [if_neg hname] at h
      cases hrec : processTargetSelections paginationField dirToAdd rest with
      | error e => rw [hrec] at h; simp at h
      | ok r2 =>
        rw [hrec] at h
        injection h with h1
        subst h1
        exact List.Forall₂.cons
          ⟨fun _ => rfl, fun heq => absurd heq hname⟩ (ih r2 hrec)

theorem processTargetSelections_found_false (paginationField : String)
    (dirToAdd : DirectiveNode) :
    ∀ sels r, processTargetSelections paginationField dirToAdd sels = .ok r →
      r.found = false → r.sels = sels := by
  intro sels
  induction sels with
  | nil =>
    intro r h _
    simp only [processTargetSelections] at h
    injection h with h1
    subst h1
    rfl
  | cons sel rest ih =>
    intro r h hf
    simp only [processTargetSelections] at h
    by_cases hname : sel.name = paginationField
    · rw [if_pos hname] at h
      cases hpr : pruneDirectives dirToAdd sel.directives with
      | error e => rw [hpr] at h; simp at h
      | ok pr =>
        rw [hpr] at h
        cases hrec : processTargetSelections paginationField dirToAdd rest with
        | error e => rw [hrec] at h; simp at h
        | ok r2 =>
          rw [hrec] at h
          injection h with h1
          subst h1
          simp at hf
    · rw [if_neg hname] at h
      cases hrec : processTargetSelections paginationField dirToAdd rest with
      | error e => rw [hrec] at h; simp at h
      | ok r2 =>
        rw [hrec] at h
        injection h with h1
        subst h1
        have : r2.found = false := by simpa using hf
        simp [ih r2 hrec this]

theorem processPathSelections_forall2
    (f : AstNode → Except PaginationError (AstNode × List String)) (p : String) :
    ∀ sels r, processPathSelections f p sels = .ok r →
      List.Forall₂ (fun s s' =>
        (s.name ≠ p → s' = s) ∧
        (s.name = p → ∃ rem, f s = .ok (s', rem))) sels r.sels := by
  intro sels
  induction sels with
  | nil =>
    intro r h
    simp only [processPathSelections] at h
    injection h with h1
    subst h1
    exact List.Forall₂.nil
  | cons sel rest ih =>
    intro r h
    simp only [processPathSelections] at h
    by_cases hname : sel.name = p
    · rw [if_pos hname] at h
      cases hf : f sel with
      | error e => rw [hf] at h; simp at h
      | ok r1 =>
        rw [hf] at h
        cases hrec : processPathSelections f p rest with
        | error e => rw [hrec] at h; simp at h
        | ok r2 =>
          rw [hrec] at h
          injection h with h1
          subst h1
          exact List.Forall₂.cons
            ⟨fun hne => absurd hname hne, fun _ => ⟨r1.2, by simpa using hf⟩⟩
            (ih r2 hrec)
    · rw [if_neg hname] at h
      cases hrec : processPathSelections f p rest with
      | error e => rw [hrec] at h; simp at h
      | ok r2 =>
        rw [hrec] at h
        injection h with h1
        subst h1
        exact List.Forall₂.cons
          ⟨fun _ => rfl, fun heq => absurd heq hname⟩ (ih r2 hrec)

theorem addPaginationFilterGo_preserves (paginationField : String)
    (dirToAdd : DirectiveNode) :
    ∀ path : List String, ∀ node result,
      addPaginationFilterGo paginationField dirToAdd path node = .ok result →
      PreservesOffPath path paginationField node result.1 := by
  intro path
  induction path with
  | nil =>
    intro node result h
    cases node with
    | mk nm nds oss =>
      cases oss with
      | none => simp [addPaginationFilterGo, AstNode.selectionSet_mk] at h
      | some sels =>
        simp only [addPaginationFilterGo, AstNode.selectionSet_mk] at h
        cases hpts : processTargetSelections paginationField dirToAdd sels with
        | error e => rw [hpts] at h; simp at h
        | ok r =>
          rw [hpts] at h
          simp only [] at h
          by_cases hf : r.found = true
          · rw [if_pos hf] at h
            injection h with h1
            subst h1
            exact ⟨rfl, rfl, sels, r.sels, rfl, rfl,
              Or.inl (processTargetSelections_forall2 paginationField dirToAdd sels r hpts)⟩
          · rw [if_neg hf] at h
            injection h with h1
            subst h1
            have hsels := processTargetSelections_found_false paginationField dirToAdd
              sels r hpts (by simpa using hf)
            refine ⟨rfl, rfl, sels, _, rfl, rfl,
              Or.inr ⟨AstNode.mk paginationField [dirToAdd] none, rfl, rfl, ?_⟩⟩
            rw [hsels]
  | cons p rest ih =>
    intro node result h
    cases node with
    | mk nm nds oss =>
      cases oss with
      | none => simp [addPaginationFilterGo, AstNode.selectionSet_mk] at h
      | some sels =>
        simp only [addPaginationFilterGo, AstNode.selectionSet_mk] at h
        cases hpps : processPathSelections
            (addPaginationFilterGo paginationField dirToAdd rest) p sels with
        | error e => rw [hpps] at h; simp at h
        | ok r =>
          rw [hpps] at h
          simp only [] at h
          by_cases hf : r.found = true
          · rw [if_pos hf] at h
            injection h with h1
            subst h1
            have hF2 := processPathSelections_forall2
              (addPaginationFilterGo paginationField dirToAdd rest) p sels r hpps
            refine ⟨rfl, rfl, sels, r.sels, rfl, rfl, ?_⟩
            refine List.Forall₂.imp ?_ hF2
            intro s s' hss
            refine ⟨hss.1, fun hname => ?_⟩
            obtain ⟨rem, hrem⟩ := hss.2 hname
            exact ih s (s', rem) hrem
          · rw [if_neg hf] at h
            simp at h

/-- Wrapper of `addPaginationFilterGo_preserves` in the source's argument
order. -/
theorem addPaginationFilter_preserves (queryAst : AstNode) (queryPath : List String)
    (paginationField : String) (directiveToAdd : DirectiveNode)
    (node' : AstNode) (removed : List String)
    (h : addPaginationFilter queryAst queryPath paginationField directiveToAdd =
      .ok (node', removed)) :
    PreservesOffPath queryPath paginationField queryAst node' :=
  addPaginationFilterGo_preserves paginationField directiveToAdd queryPath
    queryAst (node', removed) h

theorem generateParameterizedQueries_ok_elim {V : Type}
    (schemaInfo : QueryPlanningSchemaInfo) (query : ASTWithParameters V)
    (vertexPartition : VertexPartitionPlan)
    (page rem : ASTWithParameters V) (paramName : String)
    (h : generateParameterizedQueries schemaInfo query vertexPartition =
      .ok (page, rem, paramName)) :
    ∃ queryType nextPage remainderResult,
      getOnlyQueryDefinition query.queryAst = .ok queryType ∧
      paramName = generateNewName "__paged_param" (query.parameters.map Prod.fst) ∧
      addPaginationFilter queryType vertexPartition.queryPath
        vertexPartition.paginationField
        (makeBinaryFilterDirectiveNode "<" paramName) = .ok nextPage ∧
      addPaginationFilter queryType vertexPartition.queryPath
        vertexPartition.paginationField
        (makeBinaryFilterDirectiveNode ">=" paramName) = .ok remainderResult ∧
      page = ⟨⟨[nextPage.1]⟩,
        query.parameters.filter (fun kv => kv.1 ∉ nextPage.2)⟩ ∧
      rem = ⟨⟨[remainderResult.1]⟩,
        query.parameters.filter (fun kv => kv.1 ∉ remainderResult.2)⟩ := by
  simp only [generateParameterizedQueries] at h
  cases hdef : getOnlyQueryDefinition query.queryAst with
  | error e => rw [hdef] at h; simp at h
  | ok queryType =>
    rw [hdef] at h
    simp only [] at h
    cases hnp : addPaginationFilter queryType vertexPartition.queryPath
        vertexPartition.paginationField
        (makeBinaryFilterDirectiveNode "<"
          (generateNewName "__paged_param" (query.parameters.map Prod.fst))) with
    | error e => rw [hnp] at h; simp at h
    | ok nextPage =>
      rw [hnp] at h
      simp only [] at h
      cases hrr : addPaginationFilter queryType vertexPartition.queryPath
          vertexPartition.paginationField
          (makeBinaryFilterDirectiveNode ">="
            (generateNewName "__paged_param" (query.parameters.map Prod.fst))) with
      | error e => rw [hrr] at h; simp at h
      | ok remainderResult =>
        rw [hrr] at h
        simp only [] at h
        obtain ⟨hpage, hrem, hpn⟩ : _ ∧ _ ∧ _ := by
          simpa [Prod.ext_iff] using h
        subst hpage
        subst hrem
        subst hpn
        refine ⟨queryType, nextPage, remainderResult, rfl, rfl, hnp, hrr, ?_, ?_⟩ <;>
          simp

/-- C7: the Query Parameterizer never mutates its input — every rewrite
builds new values, which the pure embedding renders as: whenever
`generate_parameterized_queries` succeeds, in both output queries every
selection subtree off the partition path, and at the target vertex every
child selection other than the pagination field's, is the identical
subtree of the input query definition, and only nodes along the path are
rebuilt (they keep their name and directive list). -/
theorem generateParameterizedQueries_preserves_off_path {V : Type}
    (schemaInfo : QueryPlanningSchemaInfo) (query : ASTWithParameters V)
    (vertexPartition : VertexPartitionPlan)
    (page rem : ASTWithParameters V) (paramName : String)
    (h : generateParameterizedQueries schemaInfo query vertexPartition =
      .ok (page, rem, paramName))
    (root : AstNode) (hroot : getOnlyQueryDefinition query.queryAst = .ok root) :
    (∃ pageRoot, page.queryAst.definitions = [pageRoot] ∧
      PreservesOffPath vertexPartition.queryPath vertexPartition.paginationField
        root pageRoot) ∧
    (∃ remRoot, rem.queryAst.definitions = [remRoot] ∧
      PreservesOffPath vertexPartition.queryPath vertexPartition.paginationField
        root remRoot) := by
  obtain ⟨queryType, nextPage, remainderResult, hdef, hpn, hnp, hrr, hpage, hrem⟩ :=
    generateParameterizedQueries_ok_elim schemaInfo query vertexPartition
      page rem paramName h
  have hqt : queryType = root := by
    rw [hdef] at hroot
    injection hroot
  subst hqt
  subst hpage
  subst hrem
  constructor
  · exact ⟨nextPage.1, rfl,
      addPaginationFilter_preserves queryType vertexPartition.queryPath
        vertexPartition.paginationField _ nextPage.1 nextPage.2 (by simpa using hnp)⟩
  · exact ⟨remainderResult.1, rfl,
      addPaginationFilter_preserves queryType vertexPartition.queryPath
        vertexPartition.paginationField _ remainderResult.1 remainderResult.2
        (by simpa using hrr)⟩

/-- C7 witness: on the concrete sample query the parameterizer succeeds and
both output roots satisfy the structural-sharing relation with the input
root. -/
theorem generateParameterizedQueries_preserves_off_path_witness :
    (∃ pageRoot, (⟨⟨[samplePageRoot8]⟩,
        [("__paged_param_0", (3 : Nat))]⟩ : ASTWithParameters Nat).queryAst.definitions =
        [pageRoot] ∧
      PreservesOffPath sampleVP.queryPath sampleVP.paginationField
        sampleRoot pageRoot) ∧
    (∃ remRoot, (⟨⟨[sampleRemRoot8]⟩,
        [("__paged_param_0", (3 : Nat))]⟩ : ASTWithParameters Nat).queryAst.definitions =
        [remRoot] ∧
      PreservesOffPath sampleVP.queryPath sampleVP.paginationField
        sampleRoot remRoot) :=
  generateParameterizedQueries_preserves_off_path ⟨⟩ sampleQuery8 sampleVP
    ⟨⟨[samplePageRoot8]⟩, [("__paged_param_0", 3)]⟩
    ⟨⟨[sampleRemRoot8]⟩, [("__paged_param_0", 3)]⟩
    "__paged_param_1" (by rfl) sampleRoot (by rfl)

/-- C8: the boundary parameter name is obtained by trying the fixed base
name with suffix index 0, 1, 2, ... and taking the first candidate not in
the query's parameter mapping, hence it is never a key of the original
mapping, and the identical generated name is used in both the page `<`
filter and the remainder `>=` filter. -/
theorem generateParameterizedQueries_fresh_param {V : Type}
    (schemaInfo : QueryPlanningSchemaInfo) (query : ASTWithParameters V)
    (vertexPartition : VertexPartitionPlan)
    (page rem : ASTWithParameters V) (paramName : String)
    (h : generateParameterizedQueries schemaInfo query vertexPartition =
      .ok (page, rem, paramName)) :
    paramName = generateNewName "__paged_param" (query.parameters.map Prod.fst) ∧
    paramName ∉ query.parameters.map Prod.fst ∧
    (∃ i, paramName = nameCandidate "__paged_param" i ∧
      ∀ k < i, nameCandidate "__paged_param" k ∈ query.parameters.map Prod.fst) ∧
    ∃ root nextPage remainderResult,
      getOnlyQueryDefinition query.queryAst = .ok root ∧
      addPaginationFilter root vertexPartition.queryPath
        vertexPartition.paginationField
        (makeBinaryFilterDirectiveNode "<" paramName) = .ok nextPage ∧
      addPaginationFilter root vertexPartition.queryPath
        vertexPartition.paginationField
        (makeBinaryFilterDirectiveNode ">=" paramName) = .ok remainderResult ∧
      page.queryAst = ⟨[nextPage.1]⟩ ∧ rem.queryAst = ⟨[remainderResult.1]⟩ := by
  obtain ⟨queryType, nextPage, remainderResult, hdef, hpn, hnp, hrr, hpage, hrem⟩ :=
    generateParameterizedQueries_ok_elim schemaInfo query vertexPartition
      page rem paramName h
  subst hpage
  subst hrem
  refine ⟨hpn, ?_, ?_, queryType, nextPage, remainderResult, hdef, hnp, hrr, rfl, rfl⟩
  · rw [hpn]
    exact generateNewName_not_mem _ _
  · obtain ⟨i, h1, _, h3⟩ :=
      generateNewName_spec "__paged_param" (query.parameters.map Prod.fst)
    exact ⟨i, by rw [hpn, h1], h3⟩

/-- C8 witness: for the sample query whose mapping already holds
`__paged_param_0`, the generated name is the next candidate
`__paged_param_1`, absent from the mapping, and both filters carry it. -/
theorem generateParameterizedQueries_fresh_param_witness :
    "__paged_param_1" =
      generateNewName "__paged_param" (sampleQuery8.parameters.map Prod.fst) ∧
    "__paged_param_1" ∉ sampleQuery8.parameters.map Prod.fst ∧
    (∃ i, "__paged_param_1" = nameCandidate "__paged_param" i ∧
      ∀ k < i, nameCandidate "__paged_param" k ∈ sampleQuery8.parameters.map Prod.fst) ∧
    ∃ root nextPage remainderResult,
      getOnlyQueryDefinition sampleQuery8.queryAst = .ok root ∧
      addPaginationFilter root sampleVP.queryPath sampleVP.paginationField
        (makeBinaryFilterDirectiveNode "<" "__paged_param_1") = .ok nextPage ∧
      addPaginationFilter root sampleVP.queryPath sampleVP.paginationField
        (makeBinaryFilterDirectiveNode ">=" "__paged_param_1") = .ok remainderResult ∧
      (⟨⟨[samplePageRoot8]⟩,
        [("__paged_param_0", (3 : Nat))]⟩ : ASTWithParameters Nat).queryAst =
        ⟨[nextPage.1]⟩ ∧
      (⟨⟨[sampleRemRoot8]⟩,
        [("__paged_param_0", (3 : Nat))]⟩ : ASTWithParameters Nat).queryAst =
        ⟨[remainderResult.1]⟩ :=
  generateParameterizedQueries_fresh_param ⟨⟩ sampleQuery8 sampleVP
    ⟨⟨[samplePageRoot8]⟩, [("__paged_param_0", 3)]⟩
    ⟨⟨[sampleRemRoot8]⟩, [("__paged_param_0", 3)]⟩
    "__paged_param_1" (by rfl)

/-- C2: the claim states each output query's mapping is the original minus
that branch's removed names plus the generated boundary parameter mapped to
the boundary value, so that mappings hold exactly the referenced names.
The source's `generate_parameterized_queries` takes no boundary value and
never binds the generated name: evaluated at a query whose `uuid` child
carries a `<` filter on `existing` (mapping `{existing: 7}`), the page
branch prunes `existing` and its mapping comes out empty even though the
injected page filter references `$__paged_param_0`; the remainder branch,
pruned independently, keeps `existing` but also lacks the boundary
binding; the generated name is returned separately instead. -/
theorem generateParameterizedQueries_unbound_boundary :
    generateParameterizedQueries ⟨⟩
      (⟨⟨[c2Root]⟩, [("existing", (7 : Nat))]⟩ : ASTWithParameters Nat) sampleVP =
      .ok (⟨⟨[c2PageRoot]⟩, []⟩, ⟨⟨[c2RemRoot]⟩, [("existing", 7)]⟩,
           "__paged_param_0") := rfl
